import Mathlib

/-!
Shallow embedding of the geometric core of `src/main.js`: the `Tetrahedron`
class (circumsphere computation and predicates), the `Delaunay3D` class
(Bowyer–Watson insertion, super-tetrahedron bootstrap, final query) and the
Voronoi dual extraction of `drawVoronoi`.  JavaScript floating-point numbers
are modelled as exact rationals; `THREE.Vector3` is modelled by `V3` with the
three coordinate fields the source uses.
-/

set_option maxHeartbeats 1000000

namespace DelaunaySpec

/-- Model of `THREE.Vector3` restricted to the coordinate fields used by the
source.  Value equality of two points (the source's `Vector3.equals`) is
componentwise equality. -/
structure V3 where
  x : ℚ
  y : ℚ
  z : ℚ
deriving DecidableEq, Repr

/-- Componentwise difference, modelling `a.clone().sub(b)`. -/
def V3.sub (a b : V3) : V3 :=
  ⟨a.x - b.x, a.y - b.y, a.z - b.z⟩

/-- Squared length, modelling `Vector3.lengthSq`. -/
def V3.lengthSq (a : V3) : ℚ :=
  a.x * a.x + a.y * a.y + a.z * a.z

/-- Squared distance, modelling `Vector3.distanceToSquared`. -/
def V3.distanceToSquared (a b : V3) : ℚ :=
  (a.sub b).lengthSq

/-- A tetrahedron is constructed from exactly four points (`this.points =
[p1, p2, p3, p4]` in the source).  The circumsphere data cached by the
constructor is a pure function of the four points and is embedded below as
derived functions rather than mutable fields. -/
structure Tetrahedron where
  p1 : V3
  p2 : V3
  p3 : V3
  p4 : V3
deriving DecidableEq, Repr

/-- The `points` array of a tetrahedron in construction order. -/
def Tetrahedron.points (t : Tetrahedron) : List V3 :=
  [t.p1, t.p2, t.p3, t.p4]

/-- Determinant of the edge-vector matrix `M` of `calcCircumsphere`: rows are
`a - d`, `b - d`, `c - d` for `a, b, c, d = points[0..3]`. -/
def Tetrahedron.calcDet (t : Tetrahedron) : ℚ :=
  let a_ := t.p1.sub t.p4
  let b_ := t.p2.sub t.p4
  let c_ := t.p3.sub t.p4
  a_.x * (b_.y * c_.z - b_.z * c_.y)
    - a_.y * (b_.x * c_.z - b_.z * c_.x)
    + a_.z * (b_.x * c_.y - b_.y * c_.x)

/-- Degeneracy tolerance of `calcCircumsphere`: `1e-12`. -/
def degTol : ℚ := 1 / 1000000000000

/-- The circumcenter formula of `calcCircumsphere` in the non-degenerate
branch: the cofactor solution of the 3×3 system scaled by `invDet = 0.5/det`,
translated back by `d = points[3]`.  Meaningful only when `calcDet t ≠ 0`. -/
def Tetrahedron.circumcenterRaw (t : Tetrahedron) : V3 :=
  let a_ := t.p1.sub t.p4
  let b_ := t.p2.sub t.p4
  let c_ := t.p3.sub t.p4
  let A := a_.lengthSq
  let B := b_.lengthSq
  let C := c_.lengthSq
  let invDet := (1 / 2) / t.calcDet
  ⟨(A * (b_.y * c_.z - c_.y * b_.z) - B * (a_.y * c_.z - c_.y * a_.z)
      + C * (a_.y * b_.z - b_.y * a_.z)) * invDet + t.p4.x,
   (A * (b_.z * c_.x - c_.z * b_.x) - B * (a_.z * c_.x - c_.z * a_.x)
      + C * (a_.z * b_.x - b_.z * a_.x)) * invDet + t.p4.y,
   (A * (b_.x * c_.y - c_.x * b_.y) - B * (a_.x * c_.y - c_.x * a_.y)
      + C * (a_.x * b_.y - b_.x * a_.y)) * invDet + t.p4.z⟩

/-- The cached `circumcenter` field: `null` (here `none`) exactly when
`|det| < 1e-12`. -/
def Tetrahedron.circumcenter (t : Tetrahedron) : Option V3 :=
  if |t.calcDet| < degTol then none else some t.circumcenterRaw

/-- The finite squared circumradius assigned in the non-degenerate branch:
`circumcenter.distanceToSquared(a)` with `a = points[0]`. -/
def Tetrahedron.radiusSqQ (t : Tetrahedron) : ℚ :=
  t.circumcenterRaw.distanceToSquared t.p1

/-- The cached `radiusSq` field; the source stores `Infinity` in the
degenerate branch, modelled by `⊤` in `WithTop ℚ`. -/
def Tetrahedron.radiusSq (t : Tetrahedron) : WithTop ℚ :=
  if |t.calcDet| < degTol then ⊤ else (t.radiusSqQ : WithTop ℚ)

/-- Model of `circumsphereContains`: `false` when the circumcenter is `null`,
otherwise the strict comparison of the squared distance with the (finite)
cached squared radius. -/
def Tetrahedron.circumsphereContains (t : Tetrahedron) (p : V3) : Bool :=
  match t.circumcenter with
  | none => false
  | some c => decide (p.distanceToSquared c < t.radiusSqQ)

/-- Model of `containsPoint`: some vertex equals `p` by value. -/
def Tetrahedron.containsPoint (t : Tetrahedron) (p : V3) : Bool :=
  t.points.any (fun v => v == p)

/-- A triangular face as produced by `getFaces`: the record `{a, b, c}`. -/
structure Face where
  a : V3
  b : V3
  c : V3
deriving DecidableEq, Repr

/-- Model of `getFaces`: the four vertex triples
`{0,1,2}, {0,1,3}, {0,2,3}, {1,2,3}` in this fixed order. -/
def Tetrahedron.getFaces (t : Tetrahedron) : List Face :=
  [⟨t.p1, t.p2, t.p3⟩, ⟨t.p1, t.p2, t.p4⟩, ⟨t.p1, t.p3, t.p4⟩, ⟨t.p2, t.p3, t.p4⟩]

/-- Model of `isAdjacent`: the double loop counts pairs of value-equal
vertices and tests the count against `3`. -/
def Tetrahedron.isAdjacent (t other : Tetrahedron) : Bool :=
  let common := (t.points.map
    (fun v => (other.points.filter (fun w => v == w)).length)).sum
  common == 3

/-- Face key used by `addPoint`: the source builds the string
`[a,b,c].map(p => "x,y,z").sort().join("|")`.  Since coordinate formatting is
injective and sorting canonicalizes the order, two faces receive equal keys
exactly when the multisets of their three vertices are equal; the key is
therefore modelled as that multiset. -/
def faceKey (f : Face) : Multiset V3 :=
  {f.a, f.b, f.c}

/-- One step of the cavity `faceMap` bookkeeping of `addPoint`:
`faceMap.has(key) ? faceMap.delete(key) : faceMap.set(key, face)`.
A JavaScript `Map` is modelled as an insertion-ordered association list with
unique keys; `set` of an absent key appends, `delete` removes the entry. -/
def toggleFace (faceMap : List (Multiset V3 × Face)) (face : Face) :
    List (Multiset V3 × Face) :=
  let key := faceKey face
  if key ∈ faceMap.map Prod.fst then
    faceMap.filter (fun e => decide (e.1 ≠ key))
  else
    faceMap ++ [(key, face)]

/-- The record returned by `addPoint`: `{badTetras, cavityFaces, newTetras}`. -/
structure AddResult where
  badTetras : List Tetrahedron
  cavityFaces : List Face
  newTetras : List Tetrahedron
deriving DecidableEq, Repr

/-- Model of `Delaunay3D.addPoint` acting on the `tetrahedra` list: returns
the delta record together with the updated live list.  Mirrors the source
line by line: the bad filter, the complementary filter that reassigns
`this.tetrahedra`, the face-toggling pass over all faces of all bad
tetrahedra, and the construction of one new tetrahedron per retained cavity
face (pushed after the surviving tetrahedra, in cavity order). -/
def addPoint (tetrahedra : List Tetrahedron) (point : V3) :
    AddResult × List Tetrahedron :=
  let badTetras := tetrahedra.filter (fun t => t.circumsphereContains point)
  let remaining := tetrahedra.filter (fun t => !(t.circumsphereContains point))
  let faceMap := badTetras.foldl
    (fun m t => t.getFaces.foldl toggleFace m) ([] : List (Multiset V3 × Face))
  let cavityFaces := faceMap.map Prod.snd
  let newTetras := cavityFaces.map (fun f => Tetrahedron.mk point f.a f.b f.c)
  (⟨badTetras, cavityFaces, newTetras⟩, remaining ++ newTetras)

/-- The super-tetrahedron the `Delaunay3D` constructor builds from its `size`
argument `s`: vertices `(-s,-s,-s)`, `(s,-s,0)`, `(0,s,-s)`, `(0,-s,s)`. -/
def superTetra (s : ℚ) : Tetrahedron :=
  ⟨⟨-s, -s, -s⟩, ⟨s, -s, 0⟩, ⟨0, s, -s⟩, ⟨0, -s, s⟩⟩

/-- State of a `Delaunay3D` object: the live `tetrahedra` list and the four
retained `superPoints`. -/
structure Delaunay3D where
  tetrahedra : List Tetrahedron
  superPoints : List V3
deriving DecidableEq, Repr

/-- Model of the `Delaunay3D` constructor. -/
def Delaunay3D.init (size : ℚ) : Delaunay3D :=
  let s := size
  { tetrahedra := [superTetra s],
    superPoints := [⟨-s, -s, -s⟩, ⟨s, -s, 0⟩, ⟨0, s, -s⟩, ⟨0, -s, s⟩] }

/-- Model of the method `Delaunay3D.addPoint`, threading the state record. -/
def Delaunay3D.addPoint (d : Delaunay3D) (point : V3) :
    AddResult × Delaunay3D :=
  let r := DelaunaySpec.addPoint d.tetrahedra point
  (r.1, { d with tetrahedra := r.2 })

/-- The constant `BOX_SIZE = 10` of the source. -/
def BOX_SIZE : ℚ := 10

/-- The constant `JITTER_AMOUNT = 1e-6` of the source. -/
def JITTER_AMOUNT : ℚ := 1 / 1000000

/-- The points `setupSimulation` can generate: each coordinate is
`(Math.random() - 0.5) * BOX_SIZE` plus a jitter of magnitude below
`JITTER_AMOUNT`; every such point satisfies these bounds. -/
def canGenerate (p : V3) : Prop :=
  |p.x| ≤ BOX_SIZE / 2 + JITTER_AMOUNT ∧
  |p.y| ≤ BOX_SIZE / 2 + JITTER_AMOUNT ∧
  |p.z| ≤ BOX_SIZE / 2 + JITTER_AMOUNT

/-- Strict membership of `p` in the interior of the convex hull of the four
points `a, b, c, d`: a barycentric combination with all four weights
strictly positive.  This is the geometric notion behind the spec's phrase
"strictly contains"; it is not a function of the source. -/
def strictlyInsideHull (a b c d p : V3) : Prop :=
  ∃ l1 l2 l3 l4 : ℚ,
    0 < l1 ∧ 0 < l2 ∧ 0 < l3 ∧ 0 < l4 ∧ l1 + l2 + l3 + l4 = 1 ∧
    p.x = l1 * a.x + l2 * b.x + l3 * c.x + l4 * d.x ∧
    p.y = l1 * a.y + l2 * b.y + l3 * c.y + l4 * d.y ∧
    p.z = l1 * a.z + l2 * b.z + l3 * c.z + l4 * d.z

/-- Lower corner of the clipping box of `drawVoronoi`:
`(-BOX_SIZE/2, -BOX_SIZE/2, -BOX_SIZE/2)`. -/
def boxMin : V3 := ⟨-BOX_SIZE / 2, -BOX_SIZE / 2, -BOX_SIZE / 2⟩

/-- Upper corner of the clipping box of `drawVoronoi`. -/
def boxMax : V3 := ⟨BOX_SIZE / 2, BOX_SIZE / 2, BOX_SIZE / 2⟩

/-- Model of `THREE.Box3.containsPoint` for the fixed bounds of `drawVoronoi`:
closed-box membership in each coordinate. -/
def containsPointBox (p : V3) : Bool :=
  decide (boxMin.x ≤ p.x ∧ p.x ≤ boxMax.x ∧ boxMin.y ≤ p.y ∧ p.y ≤ boxMax.y ∧
    boxMin.z ≤ p.z ∧ p.z ≤ boxMax.z)

/-- One axis of the slab method for ray–box intersection.  The accumulator
holds the running parameter interval, where `none` bounds mean "not yet
constrained" and an outer `none` means the ray misses a slab.  An axis with
zero direction component keeps the interval when the origin coordinate lies
inside that slab and reports a miss otherwise. -/
def axisStep (acc : Option (Option ℚ × Option ℚ)) (o d mn mx : ℚ) :
    Option (Option ℚ × Option ℚ) :=
  match acc with
  | none => none
  | some (lo, hi) =>
    if d = 0 then
      if mn ≤ o ∧ o ≤ mx then some (lo, hi) else none
    else
      let t1 := (mn - o) / d
      let t2 := (mx - o) / d
      let l := min t1 t2
      let h := max t1 t2
      some (some (match lo with | none => l | some v => max v l),
            some (match hi with | none => h | some v => min v h))

/-- Modelled from the spec: the ray–box intersection used by `drawVoronoi`
(`THREE.Ray.intersectBox` followed by `Ray.at`), which is library code absent
from `src/`.  The spec describes it as intersecting the ray cast from one
circumcenter towards another with the box surface.  The slab parameter
interval `[tmin, tmax]` is computed per axis; the ray misses when the
interval is empty or entirely behind the origin, and otherwise the reported
point is `origin + t*dir` at the first nonnegative parameter (`tmin` if
`tmin ≥ 0`, else `tmax`).  The source normalizes `dir` first; with exact
arithmetic that rescales the parameter by a positive constant and leaves the
reported point unchanged, so the unnormalized direction is used here. -/
def rayIntersectBox (origin dir : V3) : Option V3 :=
  match axisStep (axisStep (axisStep (some (none, none))
      origin.x dir.x boxMin.x boxMax.x)
      origin.y dir.y boxMin.y boxMax.y)
      origin.z dir.z boxMin.z boxMax.z with
  | some (some l, some h) =>
    if l > h then none
    else if h < 0 then none
    else
      let tHit := if 0 ≤ l then l else h
      some ⟨origin.x + tHit * dir.x, origin.y + tHit * dir.y,
            origin.z + tHit * dir.z⟩
  | _ => none

/-- The body of the inner pair loop of `drawVoronoi` for one pair of
tetrahedra: skip non-adjacent pairs and pairs with a missing circumcenter,
emit the full segment when both circumcenters are inside the box, emit the
clipped segment when exactly one is inside and the ray hits the box, and
emit nothing otherwise.  The source flattens each segment into six floats
pushed onto `positions`; a segment is modelled as the pair of endpoints. -/
def emitForPair (t1 t2 : Tetrahedron) : Option (V3 × V3) :=
  if t1.isAdjacent t2 then
    match t1.circumcenter, t2.circumcenter with
    | some c1, some c2 =>
      let isC1Inside := containsPointBox c1
      let isC2Inside := containsPointBox c2
      if isC1Inside && isC2Inside then
        some (c1, c2)
      else if isC1Inside && !isC2Inside then
        (rayIntersectBox c1 (c2.sub c1)).map (fun ip => (c1, ip))
      else if !isC1Inside && isC2Inside then
        (rayIntersectBox c2 (c1.sub c2)).map (fun ip => (c2, ip))
      else
        none
    | _, _ => none
  else none

/-- The pair enumeration of `drawVoronoi`: indices `i < j` in order, the
inner index ascending for each fixed outer index. -/
def drawVoronoi : List Tetrahedron → List (V3 × V3)
  | [] => []
  | t :: rest => rest.filterMap (emitForPair t) ++ drawVoronoi rest

/-- Faces of all bad tetrahedra of one `addPoint` call, in traversal order
(the nested `forEach` of the source). -/
def allBadFaces (tetrahedra : List Tetrahedron) (point : V3) : List Face :=
  (tetrahedra.filter (fun t => t.circumsphereContains point)).flatMap
    Tetrahedron.getFaces

/-- Number of occurrences of a face key among the faces of the bad
tetrahedra of one `addPoint` call. -/
def keyCount (tetrahedra : List Tetrahedron) (point : V3) (k : Multiset V3) : ℕ :=
  ((allBadFaces tetrahedra point).map faceKey).count k

/-- The cavity boundary faces returned by one `addPoint` call. -/
def cavityOf (tetrahedra : List Tetrahedron) (point : V3) : List Face :=
  (addPoint tetrahedra point).1.cavityFaces

/-- Tagged model of a `THREE.Vector3` object: the coordinates together with
an identity tag.  Two JavaScript object references are the same object
exactly when the tagged records are equal (every distinct object carries a
distinct tag); `Vector3.equals` compares only the coordinates. -/
structure RPoint where
  tag : ℕ
  x : ℚ
  y : ℚ
  z : ℚ
deriving DecidableEq, Repr

/-- Coordinate-value equality of two point objects (`Vector3.equals`). -/
def RPoint.sameValue (p q : RPoint) : Bool :=
  p.x == q.x && p.y == q.y && p.z == q.z

/-- A tetrahedron over tagged points, for the object-identity model of
`getTriangulation`. -/
structure RTetra where
  p1 : RPoint
  p2 : RPoint
  p3 : RPoint
  p4 : RPoint
deriving DecidableEq, Repr

/-- The `points` array of a tagged tetrahedron. -/
def RTetra.points (t : RTetra) : List RPoint :=
  [t.p1, t.p2, t.p3, t.p4]

/-- State of a `Delaunay3D` object in the tagged model. -/
structure RDelaunay where
  tetrahedra : List RTetra
  superPoints : List RPoint
deriving DecidableEq, Repr

/-- Model of `getTriangulation` over tagged points.  The source filters with
`this.superPoints.includes(p)`, and `Array.includes` on objects compares
object identity (not `Vector3.equals`), modelled by equality of tagged
records.  The filter reads the state and returns it unchanged. -/
def getTriangulationRef (d : RDelaunay) : List RTetra × RDelaunay :=
  (d.tetrahedra.filter
    (fun t => !(t.points.any (fun p => d.superPoints.contains p))), d)

/-- Follows the claim's words: the same filter with vertices compared to the
super-tetrahedron points by coordinate value (`Vector3.equals`) instead of
object identity. -/
def getTriangulationByValue (d : RDelaunay) : List RTetra :=
  d.tetrahedra.filter
    (fun t => !(t.points.any (fun p => d.superPoints.any (fun sq => p.sameValue sq))))

/-- The four super-tetrahedron point objects of `Delaunay3D(20)` (that is,
`BOX_SIZE * 2`) in the tagged model, tags 0–3. -/
def rSuperPoints : List RPoint :=
  [⟨0, -20, -20, -20⟩, ⟨1, 20, -20, 0⟩, ⟨2, 0, 20, -20⟩, ⟨3, 0, -20, 20⟩]

/-- A state whose single live tetrahedron has a vertex (tag 4) that carries
the same coordinates as the first super point but is a different object. -/
def rDupState : RDelaunay :=
  { tetrahedra := [⟨⟨4, -20, -20, -20⟩, ⟨5, 1, 0, 0⟩, ⟨6, 0, 1, 0⟩, ⟨7, 0, 0, 1⟩⟩],
    superPoints := rSuperPoints }

/-- A state with the same shape whose tetrahedron vertices all differ from
the super points in value, used to instantiate the agreement statement. -/
def rCleanState : RDelaunay :=
  { tetrahedra := [⟨⟨4, 1, 1, 1⟩, ⟨5, 1, 0, 0⟩, ⟨6, 0, 1, 0⟩, ⟨7, 0, 0, 1⟩⟩],
    superPoints := rSuperPoints }

/-- Invariant of the cavity face map after processing a prefix of the faces
of the removed tetrahedra: the stored keys are pairwise distinct, a key is
present exactly when it has been toggled an odd number of times so far, and
every stored entry is one of the processed faces keyed by its own face key. -/
def FaceMapInv (processed : List Face) (m : List (Multiset V3 × Face)) : Prop :=
  (m.map Prod.fst).Nodup ∧
  (∀ k : Multiset V3, k ∈ m.map Prod.fst ↔ (processed.map faceKey).count k % 2 = 1) ∧
  (∀ e ∈ m, e.1 = faceKey e.2 ∧ e.2 ∈ processed)

/-!
Theorems.  Shared helper lemmas come first, then one theorem per claim
(with a witness or counterexample where required).
-/

/-- Squared distance is symmetric in its two arguments. -/
theorem V3.distanceToSquared_comm (a b : V3) :
    a.distanceToSquared b = b.distanceToSquared a := by
  simp only [V3.distanceToSquared, V3.sub, V3.lengthSq]
  ring

/-- The degeneracy tolerance is positive. -/
theorem degTol_pos : (0 : ℚ) < degTol := by norm_num [degTol]

/-- A tetrahedron that passes the tolerance test has a nonzero determinant. -/
theorem calcDet_ne_zero (t : Tetrahedron) (h : ¬ |t.calcDet| < degTol) :
    t.calcDet ≠ 0 := by
  intro h0
  exact h (by rw [h0]; simpa using degTol_pos)

/-- Cramer identities for the circumcenter formula: the vector from
`points[3]` to the computed center has the prescribed dot products with the
three edge vectors.  These are the three rows of the linear system
`calcCircumsphere` solves. -/
theorem circumcenterRaw_dot (t : Tetrahedron) (h : t.calcDet ≠ 0) :
    2 * ((t.circumcenterRaw.x - t.p4.x) * (t.p1.x - t.p4.x) +
         (t.circumcenterRaw.y - t.p4.y) * (t.p1.y - t.p4.y) +
         (t.circumcenterRaw.z - t.p4.z) * (t.p1.z - t.p4.z)) = (t.p1.sub t.p4).lengthSq ∧
    2 * ((t.circumcenterRaw.x - t.p4.x) * (t.p2.x - t.p4.x) +
         (t.circumcenterRaw.y - t.p4.y) * (t.p2.y - t.p4.y) +
         (t.circumcenterRaw.z - t.p4.z) * (t.p2.z - t.p4.z)) = (t.p2.sub t.p4).lengthSq ∧
    2 * ((t.circumcenterRaw.x - t.p4.x) * (t.p3.x - t.p4.x) +
         (t.circumcenterRaw.y - t.p4.y) * (t.p3.y - t.p4.y) +
         (t.circumcenterRaw.z - t.p4.z) * (t.p3.z - t.p4.z)) = (t.p3.sub t.p4).lengthSq := by
  obtain ⟨⟨ax, ay, az⟩, ⟨bx, by_, bz⟩, ⟨cx, cy, cz⟩, ⟨dx, dy, dz⟩⟩ := t
  simp only [Tetrahedron.circumcenterRaw, Tetrahedron.calcDet, V3.sub, V3.lengthSq] at h ⊢
  refine ⟨?_, ?_, ?_⟩ <;> field_simp <;> ring

/-- The computed circumcenter is equidistant from all four vertices. -/
theorem circumcenterRaw_dist_eq (t : Tetrahedron) (h : t.calcDet ≠ 0) :
    t.circumcenterRaw.distanceToSquared t.p2 = t.circumcenterRaw.distanceToSquared t.p1 ∧
    t.circumcenterRaw.distanceToSquared t.p3 = t.circumcenterRaw.distanceToSquared t.p1 ∧
    t.circumcenterRaw.distanceToSquared t.p4 = t.circumcenterRaw.distanceToSquared t.p1 := by
  obtain ⟨h1, h2, h3⟩ := circumcenterRaw_dot t h
  rcases hg : t.circumcenterRaw with ⟨gx, gy, gz⟩
  rw [hg] at h1 h2 h3
  simp only [V3.sub, V3.lengthSq] at h1 h2 h3
  simp only [V3.distanceToSquared, V3.sub, V3.lengthSq]
  exact ⟨by linear_combination h1 - h2, by linear_combination h1 - h3,
    by linear_combination h1⟩

/-- Unfolding of the circumcenter in the non-degenerate case. -/
theorem circumcenter_eq_some (t : Tetrahedron) (h : ¬ |t.calcDet| < degTol) :
    t.circumcenter = some t.circumcenterRaw ∧ t.radiusSq = (t.radiusSqQ : WithTop ℚ) := by
  constructor
  · simp [Tetrahedron.circumcenter, h]
  · simp [Tetrahedron.radiusSq, h]

/-- Unfolding of the circumcenter in the degenerate case. -/
theorem circumcenter_eq_none (t : Tetrahedron) (h : |t.calcDet| < degTol) :
    t.circumcenter = none ∧ t.radiusSq = ⊤ := by
  constructor
  · simp [Tetrahedron.circumcenter, h]
  · simp [Tetrahedron.radiusSq, h]

/-- Evaluation of `circumsphereContains` when the circumcenter is absent. -/
theorem circumsphereContains_of_none (t : Tetrahedron) (p : V3)
    (hc : t.circumcenter = none) : t.circumsphereContains p = false := by
  unfold Tetrahedron.circumsphereContains
  rw [hc]

/-- Evaluation of `circumsphereContains` when the circumcenter is present. -/
theorem circumsphereContains_of_some (t : Tetrahedron) (p c : V3)
    (hc : t.circumcenter = some c) :
    t.circumsphereContains p = decide (p.distanceToSquared c < t.radiusSqQ) := by
  unfold Tetrahedron.circumsphereContains
  rw [hc]

/-- Filtering a list by a predicate and by its negation partitions it. -/
theorem length_filter_partition {α : Type} (f : α → Bool) (l : List α) :
    (l.filter f).length + (l.filter (fun a => !(f a))).length = l.length := by
  induction l with
  | nil => rfl
  | cons a l ih =>
    cases hfa : f a <;> simp [List.filter_cons, hfa] <;> omega

/-- C3.  Conservation and frame: for every call `addPoint(p)` on any
triangulation state, the removed list is exactly the previously live
tetrahedra whose circumsphere strictly contains `p`, every other previously
live tetrahedron remains in the live set unchanged (the new state is the
good sublist, in order, followed by the created tetrahedra), and the
live-set size afterwards equals the size before minus the number removed
plus the number created. -/
theorem claim_C3_conservation_frame (tetrahedra : List Tetrahedron) (point : V3) :
    (addPoint tetrahedra point).1.badTetras
        = tetrahedra.filter (fun t => t.circumsphereContains point) ∧
    (addPoint tetrahedra point).2
        = tetrahedra.filter (fun t => !(t.circumsphereContains point))
          ++ (addPoint tetrahedra point).1.newTetras ∧
    (addPoint tetrahedra point).1.badTetras.length ≤ tetrahedra.length ∧
    (addPoint tetrahedra point).2.length
        = tetrahedra.length - (addPoint tetrahedra point).1.badTetras.length
          + (addPoint tetrahedra point).1.newTetras.length := by
  refine ⟨rfl, rfl, List.length_filter_le _ _, ?_⟩
  have hpart := length_filter_partition
    (fun t => t.circumsphereContains point) tetrahedra
  simp only [addPoint, List.length_append]
  omega

/-- C5.  Specification of `circumsphereContains`: the test returns `true`
exactly when the circumcenter is defined and the squared distance from the
query point to it is strictly below the cached squared radius; a point at
squared distance exactly equal to the squared radius is not inside; a
degenerate tetrahedron has an infinite cached `radiusSq` and its test
returns `false` for every query point. -/
theorem claim_C5_circumsphereContains_spec (t : Tetrahedron) (p : V3) :
    (t.circumsphereContains p = true ↔
      ∃ c, t.circumcenter = some c ∧
        ((p.distanceToSquared c : ℚ) : WithTop ℚ) < t.radiusSq) ∧
    (∀ c, t.circumcenter = some c →
      ((p.distanceToSquared c : ℚ) : WithTop ℚ) = t.radiusSq →
      t.circumsphereContains p = false) ∧
    (t.circumcenter = none → t.radiusSq = ⊤ ∧ t.circumsphereContains p = false) := by
  by_cases hdeg : |t.calcDet| < degTol
  · obtain ⟨hc, hr⟩ := circumcenter_eq_none t hdeg
    have hfalse := circumsphereContains_of_none t p hc
    refine ⟨?_, ?_, ?_⟩
    · rw [hfalse]
      constructor
      · intro h; exact absurd h (by simp)
      · rintro ⟨c, hcc, -⟩
        rw [hc] at hcc
        exact absurd hcc (by simp)
    · intro c hsome _
      rw [hc] at hsome
      exact absurd hsome (by simp)
    · intro _
      exact ⟨hr, hfalse⟩
  · obtain ⟨hc, hr⟩ := circumcenter_eq_some t hdeg
    have hdec := circumsphereContains_of_some t p t.circumcenterRaw hc
    refine ⟨?_, ?_, ?_⟩
    · rw [hdec, decide_eq_true_eq]
      constructor
      · intro hlt
        refine ⟨t.circumcenterRaw, hc, ?_⟩
        rw [hr]
        exact_mod_cast hlt
      · rintro ⟨c, hcc, hlt⟩
        rw [hc] at hcc
        obtain rfl : c = t.circumcenterRaw := (Option.some.inj hcc).symm
        rw [hr] at hlt
        exact_mod_cast hlt
    · intro c hsome heq
      rw [hc] at hsome
      obtain rfl : c = t.circumcenterRaw := (Option.some.inj hsome).symm
      rw [hr] at heq
      have heqq : p.distanceToSquared t.circumcenterRaw = t.radiusSqQ := by
        exact_mod_cast heq
      rw [hdec, heqq]
      exact decide_eq_false (lt_irrefl _)
    · intro hnone
      rw [hc] at hnone
      exact absurd hnone (by simp)

/-- C6.  Circumsphere correctness: for every tetrahedron whose edge-vector
determinant passes the tolerance test, the computed circumcenter is
equidistant from all four vertices and `radiusSq` is exactly that common
squared distance, so the sphere passes through all four vertices. -/
theorem claim_C6_circumsphere_correct (t : Tetrahedron)
    (h : ¬ |t.calcDet| < degTol) :
    ∃ c, t.circumcenter = some c ∧
      t.radiusSq = ((c.distanceToSquared t.p1 : ℚ) : WithTop ℚ) ∧
      c.distanceToSquared t.p1 = c.distanceToSquared t.p2 ∧
      c.distanceToSquared t.p1 = c.distanceToSquared t.p3 ∧
      c.distanceToSquared t.p1 = c.distanceToSquared t.p4 := by
  obtain ⟨hc, hr⟩ := circumcenter_eq_some t h
  obtain ⟨h2, h3, h4⟩ := circumcenterRaw_dist_eq t (calcDet_ne_zero t h)
  exact ⟨t.circumcenterRaw, hc, hr, h2.symm, h3.symm, h4.symm⟩

/-- C10.  A tetrahedron never reports one of its own four vertices as
strictly inside its circumsphere: in the degenerate case the test is
constantly `false`, and in the non-degenerate case each vertex lies exactly
on the circumsphere boundary, which the strict inequality rejects. -/
theorem claim_C10_own_vertex_never_inside (a b c d : V3) :
    (Tetrahedron.mk a b c d).circumsphereContains a = false ∧
    (Tetrahedron.mk a b c d).circumsphereContains b = false ∧
    (Tetrahedron.mk a b c d).circumsphereContains c = false ∧
    (Tetrahedron.mk a b c d).circumsphereContains d = false := by
  set t : Tetrahedron := Tetrahedron.mk a b c d with ht
  by_cases hdeg : |t.calcDet| < degTol
  · obtain ⟨hc, _⟩ := circumcenter_eq_none t hdeg
    exact ⟨circumsphereContains_of_none t a hc, circumsphereContains_of_none t b hc,
      circumsphereContains_of_none t c hc, circumsphereContains_of_none t d hc⟩
  · obtain ⟨hc, _⟩ := circumcenter_eq_some t hdeg
    obtain ⟨h2, h3, h4⟩ := circumcenterRaw_dist_eq t (calcDet_ne_zero t hdeg)
    have hr : t.radiusSqQ = t.circumcenterRaw.distanceToSquared t.p1 := rfl
    have hp1 : t.p1 = a := rfl
    have hp2 : t.p2 = b := rfl
    have hp3 : t.p3 = c := rfl
    have hp4 : t.p4 = d := rfl
    refine ⟨?_, ?_, ?_, ?_⟩ <;>
      rw [circumsphereContains_of_some t _ t.circumcenterRaw hc,
        decide_eq_false_iff_not, not_lt, hr]
    · rw [← hp1, V3.distanceToSquared_comm t.p1]
    · rw [← hp2, V3.distanceToSquared_comm t.p2, h2]
    · rw [← hp3, V3.distanceToSquared_comm t.p3, h3]
    · rw [← hp4, V3.distanceToSquared_comm t.p4, h4]

/-- Pointwise equal predicates give equal `List.any` results. -/
theorem list_any_congr {α : Type} (l : List α) (p q : α → Bool)
    (h : ∀ a ∈ l, p a = q a) : l.any p = l.any q := by
  induction l with
  | nil => rfl
  | cons a l ih =>
    simp only [List.any_cons, h a (by simp)]
    rw [ih (fun b hb => h b (by simp [hb]))]

/-- C4 (code-bug evidence).  The point `(1,1,1)` can be generated by
`setupSimulation` (it lies well inside the sampling box), yet it is not
strictly inside the convex hull of the super-tetrahedron built by
`Delaunay3D(BOX_SIZE * 2)`: the three super points other than the first all
lie on the plane `x + y + z = 0`, so any barycentric representation forces a
negative first weight.  The super-tetrahedron therefore fails to enclose the
point cloud, contradicting the spec's enclosure contract. -/
theorem claim_C4_super_tetra_not_enclosing :
    canGenerate ⟨1, 1, 1⟩ ∧
    ¬ strictlyInsideHull (superTetra (BOX_SIZE * 2)).p1 (superTetra (BOX_SIZE * 2)).p2
        (superTetra (BOX_SIZE * 2)).p3 (superTetra (BOX_SIZE * 2)).p4 ⟨1, 1, 1⟩ := by
  constructor
  · refine ⟨?_, ?_, ?_⟩ <;> norm_num [canGenerate, BOX_SIZE, JITTER_AMOUNT]
  · rintro ⟨l1, l2, l3, l4, h1, h2, h3, h4, hsum, hx, hy, hz⟩
    simp only [superTetra, BOX_SIZE] at hx hy hz
    norm_num at hx hy hz
    linarith

/-- C1 (amended).  Immediately after any `addPoint(p)` call, no live
tetrahedron that does not have `p` among its four vertices strictly contains
`p` in its circumsphere: surviving tetrahedra passed the complement of the
bad filter, and every created tetrahedron has `p` as its first vertex. -/
theorem claim_C1_last_point_delaunay (tetrahedra : List Tetrahedron) (point : V3)
    (t : Tetrahedron) (hmem : t ∈ (addPoint tetrahedra point).2)
    (hvert : t.containsPoint point = false) :
    t.circumsphereContains point = false := by
  have hsplit : (addPoint tetrahedra point).2
      = tetrahedra.filter (fun u => !(u.circumsphereContains point))
        ++ (addPoint tetrahedra point).1.newTetras := rfl
  have hnewdef : (addPoint tetrahedra point).1.newTetras
      = (addPoint tetrahedra point).1.cavityFaces.map
          (fun f => Tetrahedron.mk point f.a f.b f.c) := rfl
  rw [hsplit] at hmem
  rcases List.mem_append.1 hmem with hkeep | hnew
  · simpa using (List.mem_filter.1 hkeep).2
  · exfalso
    rw [hnewdef] at hnew
    obtain ⟨f, -, rfl⟩ := List.mem_map.1 hnew
    simp [Tetrahedron.containsPoint, Tetrahedron.points] at hvert

/-- C9 (amended).  The final query over tagged points: it does not modify
the state, it returns exactly those live tetrahedra none of whose vertices
is (as an object) one of the four super-tetrahedron point objects, and it
agrees with the value-based filter of the claim whenever every live vertex
that carries a super point's coordinates is that super point object. -/
theorem claim_C9_reference_filter (d : RDelaunay) :
    (getTriangulationRef d).2 = d ∧
    (∀ t, t ∈ (getTriangulationRef d).1 ↔
      t ∈ d.tetrahedra ∧ ∀ v ∈ t.points, v ∉ d.superPoints) ∧
    ((∀ t ∈ d.tetrahedra, ∀ v ∈ t.points, ∀ sp ∈ d.superPoints,
        v.sameValue sp = true → v = sp) →
      (getTriangulationRef d).1 = getTriangulationByValue d) := by
  refine ⟨rfl, ?_, ?_⟩
  · intro t
    simp [getTriangulationRef, List.mem_filter]
  · intro hag
    unfold getTriangulationRef getTriangulationByValue
    simp only []
    apply List.filter_congr
    intro t ht
    have hpt : ∀ v ∈ t.points,
        (d.superPoints.contains v) = (d.superPoints.any (fun sq => v.sameValue sq)) := by
      intro v hv
      rcases hcv : d.superPoints.contains v with _ | _
      · symm
        rw [List.any_eq_false]
        intro sq hsq hsv
        have hveq : v = sq := hag t ht v hv sq hsq hsv
        subst hveq
        exact absurd (List.elem_iff.mpr hsq) (by simp [List.contains] at hcv; simp [hcv])
      · symm
        rw [List.any_eq_true]
        have hvmem : v ∈ d.superPoints := by
          exact List.elem_iff.mp hcv
        exact ⟨v, hvmem, by simp [RPoint.sameValue]⟩
    congr 1
    exact list_any_congr t.points _ _ hpt

/-- The face-map invariant holds initially. -/
theorem faceMapInv_nil : FaceMapInv [] [] := by
  refine ⟨List.nodup_nil, ?_, ?_⟩
  · intro k
    simp
  · intro e he
    simp at he

/-- One `toggleFace` step preserves the face-map invariant. -/
theorem faceMapInv_toggle (processed : List Face) (m : List (Multiset V3 × Face))
    (f : Face) (h : FaceMapInv processed m) :
    FaceMapInv (processed ++ [f]) (toggleFace m f) := by
  obtain ⟨hnd, hparity, hrep⟩ := h
  have hcnt : ∀ k : Multiset V3, ((processed ++ [f]).map faceKey).count k
      = (processed.map faceKey).count k + (if k = faceKey f then 1 else 0) := by
    intro k
    rw [List.map_append, List.count_append]
    by_cases hkf : k = faceKey f
    · simp [hkf]
    · simp [List.count_cons, beq_iff_eq, hkf, Ne.symm hkf]
  unfold toggleFace
  by_cases hk : faceKey f ∈ m.map Prod.fst
  · rw [if_pos hk]
    refine ⟨?_, ?_, ?_⟩
    · exact hnd.sublist ((m.filter_sublist).map Prod.fst)
    · intro k
      rw [hcnt]
      by_cases hkf : k = faceKey f
      · subst hkf
        have hodd := (hparity (faceKey f)).mp hk
        constructor
        · intro hmem
          obtain ⟨e, he, hek⟩ := List.mem_map.1 hmem
          have := (List.mem_filter.1 he).2
          simp only [decide_eq_true_eq] at this
          exact absurd hek this
        · intro hcontra
          rw [if_pos rfl] at hcontra
          exact absurd hcontra (by omega)
      · simp only [if_neg hkf]
        rw [Nat.add_zero, ← hparity k]
        constructor
        · intro hmem
          obtain ⟨e, he, hek⟩ := List.mem_map.1 hmem
          exact List.mem_map.2 ⟨e, List.mem_of_mem_filter he, hek⟩
        · intro hmem
          obtain ⟨e, he, hek⟩ := List.mem_map.1 hmem
          refine List.mem_map.2 ⟨e, List.mem_filter.2 ⟨he, ?_⟩, hek⟩
          simp only [decide_eq_true_eq]
          rw [hek]
          exact hkf
    · intro e he
      obtain ⟨h1, h2⟩ := hrep e (List.mem_of_mem_filter he)
      exact ⟨h1, List.mem_append_left _ h2⟩
  · rw [if_neg hk]
    refine ⟨?_, ?_, ?_⟩
    · rw [List.map_append]
      simp only [List.map_cons, List.map_nil]
      rw [List.nodup_append]
      exact ⟨hnd, List.nodup_singleton _, by simpa using fun hmem => hk hmem⟩
    · intro k
      rw [hcnt, List.map_append]
      simp only [List.map_cons, List.map_nil, List.mem_append, List.mem_singleton]
      by_cases hkf : k = faceKey f
      · subst hkf
        have heven := hparity (faceKey f)
        constructor
        · intro _
          rw [if_pos rfl]
          have hne : ¬ (processed.map faceKey).count (faceKey f) % 2 = 1 :=
            fun hc => hk (heven.mpr hc)
          omega
        · intro _
          right
          rfl
      · simp only [if_neg hkf, or_iff_left hkf]
        rw [hparity k, Nat.add_zero]
    · intro e he
      rcases List.mem_append.1 he with hold | hnew
      · obtain ⟨h1, h2⟩ := hrep e hold
        exact ⟨h1, List.mem_append_left _ h2⟩
      · simp only [List.mem_singleton] at hnew
        subst hnew
        exact ⟨rfl, List.mem_append_right _ (by simp)⟩

/-- Folding `toggleFace` over any face list preserves the invariant. -/
theorem faceMapInv_foldl (faces : List Face) :
    ∀ (processed : List Face) (m : List (Multiset V3 × Face)),
      FaceMapInv processed m →
      FaceMapInv (processed ++ faces) (faces.foldl toggleFace m) := by
  induction faces with
  | nil =>
    intro processed m h
    simpa using h
  | cons f rest ih =>
    intro processed m h
    have hstep := faceMapInv_toggle processed m f h
    have := ih (processed ++ [f]) (toggleFace m f) hstep
    simpa using this

/-- The nested face fold of `addPoint` equals the fold over the flattened face list. -/
theorem foldl_getFaces_flat (ts : List Tetrahedron) :
    ∀ m, ts.foldl (fun m t => t.getFaces.foldl toggleFace m) m
      = (ts.flatMap Tetrahedron.getFaces).foldl toggleFace m := by
  induction ts with
  | nil => intro m; rfl
  | cons t rest ih =>
    intro m
    simp only [List.foldl_cons, List.flatMap_cons, List.foldl_append]
    exact ih _

/-- C2.  Cavity closure: when every face key occurs at most twice among the
faces of the removed tetrahedra (as in any simplicial complex, where a
triangle is shared by at most two cells), the returned cavity list contains
exactly those faces (by their value-based, order-insensitive key) that occur
in exactly one removed tetrahedron, each returned face is an actual face of
a removed tetrahedron, faces occurring twice are absent, and no key appears
twice in the returned list. -/
theorem claim_C2_cavity_closure (tetrahedra : List Tetrahedron) (point : V3)
    (hmult : ∀ k : Multiset V3, keyCount tetrahedra point k ≤ 2) :
    ((cavityOf tetrahedra point).map faceKey).Nodup ∧
    (∀ k : Multiset V3, k ∈ (cavityOf tetrahedra point).map faceKey ↔
      keyCount tetrahedra point k = 1) ∧
    (∀ f ∈ cavityOf tetrahedra point, f ∈ allBadFaces tetrahedra point) ∧
    (∀ k : Multiset V3, keyCount tetrahedra point k = 2 →
      k ∉ (cavityOf tetrahedra point).map faceKey) := by
  have hinv := faceMapInv_foldl (allBadFaces tetrahedra point) [] [] faceMapInv_nil
  rw [List.nil_append] at hinv
  obtain ⟨hnd, hpar, hrep⟩ := hinv
  have hcav : cavityOf tetrahedra point
      = ((allBadFaces tetrahedra point).foldl toggleFace []).map Prod.snd := by
    unfold cavityOf addPoint allBadFaces
    simp only []
    rw [foldl_getFaces_flat]
  have hkeys : (cavityOf tetrahedra point).map faceKey
      = ((allBadFaces tetrahedra point).foldl toggleFace []).map Prod.fst := by
    rw [hcav, List.map_map]
    apply List.map_congr_left
    intro e he
    exact ((hrep e he).1).symm
  refine ⟨?_, ?_, ?_, ?_⟩
  · rw [hkeys]; exact hnd
  · intro k
    rw [hkeys, hpar k]
    have hm := hmult k
    unfold keyCount at hm ⊢
    omega
  · intro f hf
    rw [hcav] at hf
    obtain ⟨e, he, rfl⟩ := List.mem_map.1 hf
    exact (hrep e he).2
  · intro k hk2 hkmem
    rw [hkeys, hpar k] at hkmem
    unfold keyCount at hk2
    omega

/-- Evaluating the face toggling over the four faces of a single removed
tetrahedron with pairwise distinct keys keeps all four faces. -/
theorem foldl_toggle_four (f1 f2 f3 f4 : Face)
    (h12 : faceKey f1 ≠ faceKey f2) (h13 : faceKey f1 ≠ faceKey f3)
    (h14 : faceKey f1 ≠ faceKey f4) (h23 : faceKey f2 ≠ faceKey f3)
    (h24 : faceKey f2 ≠ faceKey f4) (h34 : faceKey f3 ≠ faceKey f4) :
    [f1, f2, f3, f4].foldl toggleFace [] =
      [(faceKey f1, f1), (faceKey f2, f2), (faceKey f3, f3), (faceKey f4, f4)] := by
  simp [List.foldl, toggleFace, h12.symm, h13.symm, h14.symm, h23.symm, h24.symm, h34.symm]

/-- C7.  First insertion: for every scale `s` and every point `p` strictly
inside the circumsphere of the freshly constructed super-tetrahedron, the
first `addPoint(p)` call removes exactly the super-tetrahedron, returns its
four faces as the cavity boundary, and creates four new tetrahedra, one per
face, each consisting of `p` and that face's three vertices. -/
theorem claim_C7_first_insertion (s : ℚ) (p : V3)
    (h : (superTetra s).circumsphereContains p = true) :
    addPoint (Delaunay3D.init s).tetrahedra p =
      (⟨[superTetra s], (superTetra s).getFaces,
        (superTetra s).getFaces.map (fun f => Tetrahedron.mk p f.a f.b f.c)⟩,
       (superTetra s).getFaces.map (fun f => Tetrahedron.mk p f.a f.b f.c)) := by
  have hdet : (superTetra s).calcDet = -6 * s ^ 3 := by
    simp [superTetra, Tetrahedron.calcDet, V3.sub]
    ring
  have hs : s ≠ 0 := by
    rintro rfl
    have hdeg : |(superTetra 0).calcDet| < degTol := by
      rw [hdet]
      norm_num [degTol]
    have hfalse := circumsphereContains_of_none (superTetra 0) p
      ((circumcenter_eq_none _ hdeg).1)
    rw [h] at hfalse
    exact absurd hfalse (by simp)
  -- the four super points are pairwise distinct
  have hP12 : (⟨-s, -s, -s⟩ : V3) ≠ ⟨s, -s, 0⟩ := by
    intro hEq
    exact hs (by have := congrArg V3.z hEq; simpa using this)
  have hP13 : (⟨-s, -s, -s⟩ : V3) ≠ ⟨0, s, -s⟩ := by
    intro hEq
    exact hs (by have := congrArg V3.x hEq; simpa [neg_eq_zero] using this)
  have hP14 : (⟨-s, -s, -s⟩ : V3) ≠ ⟨0, -s, s⟩ := by
    intro hEq
    exact hs (by have := congrArg V3.x hEq; simpa [neg_eq_zero] using this)
  have hP23 : (⟨s, -s, 0⟩ : V3) ≠ ⟨0, s, -s⟩ := by
    intro hEq
    exact hs (by have := congrArg V3.x hEq; simpa using this)
  have hP24 : (⟨s, -s, 0⟩ : V3) ≠ ⟨0, -s, s⟩ := by
    intro hEq
    exact hs (by have := congrArg V3.x hEq; simpa using this)
  have hP34 : (⟨0, s, -s⟩ : V3) ≠ ⟨0, -s, s⟩ := by
    intro hEq
    have := congrArg V3.y hEq
    simp only at this
    exact hs (by linarith [this])
  -- the four face keys are pairwise distinct
  have hmem3 : ∀ x a b c : V3, x ∈ ({a, b, c} : Multiset V3) ↔ x = a ∨ x = b ∨ x = c := by
    intro x a b c
    simp [Multiset.insert_eq_cons]
  have hk12 : ({⟨-s, -s, -s⟩, ⟨s, -s, 0⟩, ⟨0, s, -s⟩} : Multiset V3)
      ≠ {⟨-s, -s, -s⟩, ⟨s, -s, 0⟩, ⟨0, -s, s⟩} := by
    intro hEq
    have h4 : (⟨0, -s, s⟩ : V3) ∈ ({⟨-s, -s, -s⟩, ⟨s, -s, 0⟩, ⟨0, -s, s⟩} : Multiset V3) := by
      simp
    rw [← hEq] at h4
    rcases (hmem3 _ _ _ _).1 h4 with hc | hc | hc
    · exact hP14 hc.symm
    · exact hP24 hc.symm
    · exact hP34 hc.symm
  have hk13 : ({⟨-s, -s, -s⟩, ⟨s, -s, 0⟩, ⟨0, s, -s⟩} : Multiset V3)
      ≠ {⟨-s, -s, -s⟩, ⟨0, s, -s⟩, ⟨0, -s, s⟩} := by
    intro hEq
    have h4 : (⟨0, -s, s⟩ : V3) ∈ ({⟨-s, -s, -s⟩, ⟨0, s, -s⟩, ⟨0, -s, s⟩} : Multiset V3) := by
      simp
    rw [← hEq] at h4
    rcases (hmem3 _ _ _ _).1 h4 with hc | hc | hc
    · exact hP14 hc.symm
    · exact hP24 hc.symm
    · exact hP34 hc.symm
  have hk14 : ({⟨-s, -s, -s⟩, ⟨s, -s, 0⟩, ⟨0, s, -s⟩} : Multiset V3)
      ≠ {⟨s, -s, 0⟩, ⟨0, s, -s⟩, ⟨0, -s, s⟩} := by
    intro hEq
    have h4 : (⟨0, -s, s⟩ : V3) ∈ ({⟨s, -s, 0⟩, ⟨0, s, -s⟩, ⟨0, -s, s⟩} : Multiset V3) := by
      simp
    rw [← hEq] at h4
    rcases (hmem3 _ _ _ _).1 h4 with hc | hc | hc
    · exact hP14 hc.symm
    · exact hP24 hc.symm
    · exact hP34 hc.symm
  have hk23 : ({⟨-s, -s, -s⟩, ⟨s, -s, 0⟩, ⟨0, -s, s⟩} : Multiset V3)
      ≠ {⟨-s, -s, -s⟩, ⟨0, s, -s⟩, ⟨0, -s, s⟩} := by
    intro hEq
    have h3in : (⟨0, s, -s⟩ : V3) ∈ ({⟨-s, -s, -s⟩, ⟨0, s, -s⟩, ⟨0, -s, s⟩} : Multiset V3) := by
      simp
    rw [← hEq] at h3in
    rcases (hmem3 _ _ _ _).1 h3in with hc | hc | hc
    · exact hP13 hc.symm
    · exact hP23 hc.symm
    · exact hP34 hc
  have hk24 : ({⟨-s, -s, -s⟩, ⟨s, -s, 0⟩, ⟨0, -s, s⟩} : Multiset V3)
      ≠ {⟨s, -s, 0⟩, ⟨0, s, -s⟩, ⟨0, -s, s⟩} := by
    intro hEq
    have h3in : (⟨0, s, -s⟩ : V3) ∈ ({⟨s, -s, 0⟩, ⟨0, s, -s⟩, ⟨0, -s, s⟩} : Multiset V3) := by
      simp
    rw [← hEq] at h3in
    rcases (hmem3 _ _ _ _).1 h3in with hc | hc | hc
    · exact hP13 hc.symm
    · exact hP23 hc.symm
    · exact hP34 hc
  have hk34 : ({⟨-s, -s, -s⟩, ⟨0, s, -s⟩, ⟨0, -s, s⟩} : Multiset V3)
      ≠ {⟨s, -s, 0⟩, ⟨0, s, -s⟩, ⟨0, -s, s⟩} := by
    intro hEq
    have h2in : (⟨s, -s, 0⟩ : V3) ∈ ({⟨s, -s, 0⟩, ⟨0, s, -s⟩, ⟨0, -s, s⟩} : Multiset V3) := by
      simp
    rw [← hEq] at h2in
    rcases (hmem3 _ _ _ _).1 h2in with hc | hc | hc
    · exact hP12 hc.symm
    · exact hP23 hc
    · exact hP24 hc
  -- evaluate the call
  have htetra : (Delaunay3D.init s).tetrahedra = [superTetra s] := rfl
  have hbad : [superTetra s].filter (fun t => t.circumsphereContains p) = [superTetra s] := by
    simp [h]
  have hrem : [superTetra s].filter (fun t => !(t.circumsphereContains p)) = [] := by
    simp [h]
  have hfold := foldl_toggle_four
    (⟨⟨-s, -s, -s⟩, ⟨s, -s, 0⟩, ⟨0, s, -s⟩⟩ : Face)
    (⟨⟨-s, -s, -s⟩, ⟨s, -s, 0⟩, ⟨0, -s, s⟩⟩ : Face)
    (⟨⟨-s, -s, -s⟩, ⟨0, s, -s⟩, ⟨0, -s, s⟩⟩ : Face)
    (⟨⟨s, -s, 0⟩, ⟨0, s, -s⟩, ⟨0, -s, s⟩⟩ : Face)
    hk12 hk13 hk14 hk23 hk24 hk34
  unfold addPoint
  rw [htetra, hbad, hrem]
  simp only [List.foldl_cons, List.foldl_nil]
  have hfaces : (superTetra s).getFaces
      = [⟨⟨-s, -s, -s⟩, ⟨s, -s, 0⟩, ⟨0, s, -s⟩⟩, ⟨⟨-s, -s, -s⟩, ⟨s, -s, 0⟩, ⟨0, -s, s⟩⟩,
         ⟨⟨-s, -s, -s⟩, ⟨0, s, -s⟩, ⟨0, -s, s⟩⟩, ⟨⟨s, -s, 0⟩, ⟨0, s, -s⟩, ⟨0, -s, s⟩⟩] := rfl
  rw [hfaces, hfold]
  simp [List.map]

/-- For a nonzero direction component, the slab parameter interval of an
axis whose origin coordinate lies inside the slab brackets zero. -/
theorem slab_signs (o d mn mx : ℚ) (hd : d ≠ 0) (h1 : mn ≤ o) (h2 : o ≤ mx) :
    min ((mn - o) / d) ((mx - o) / d) ≤ 0 ∧ 0 ≤ max ((mn - o) / d) ((mx - o) / d) := by
  rcases hd.lt_or_lt with hneg | hpos
  · constructor
    · exact le_trans (min_le_right _ _)
        (div_nonpos_iff.mpr (Or.inl ⟨by linarith, hneg.le⟩))
    · exact le_trans
        (div_nonneg_iff.mpr (Or.inr ⟨by linarith, hneg.le⟩)) (le_max_left _ _)
  · constructor
    · exact le_trans (min_le_left _ _)
        (div_nonpos_iff.mpr (Or.inr ⟨by linarith, hpos.le⟩))
    · exact le_trans
        (div_nonneg_iff.mpr (Or.inl ⟨by linarith, hpos.le⟩)) (le_max_right _ _)

/-- The ray-box intersection succeeds once the accumulated parameter
interval brackets zero. -/
theorem rayIntersectBox_some_of_bracket (origin dir : V3) (L H : ℚ) (hL : L ≤ 0) (hH : 0 ≤ H)
    (heq : axisStep (axisStep (axisStep (some (none, none))
        origin.x dir.x boxMin.x boxMax.x)
        origin.y dir.y boxMin.y boxMax.y)
        origin.z dir.z boxMin.z boxMax.z = some (some L, some H)) :
    ∃ ip, rayIntersectBox origin dir = some ip := by
  unfold rayIntersectBox
  rw [heq]
  dsimp only
  simp only [gt_iff_lt, if_neg (not_lt.mpr (hL.trans hH)), if_neg (not_lt.mpr hH)]
  exact ⟨_, rfl⟩

/-- A ray cast from a point inside the closed clipping box with a nonzero
direction always hits the box: the claim's "ray misses the box" case is
unreachable when the origin circumcenter is inside. -/
theorem rayIntersectBox_hits (origin dir : V3)
    (hin : containsPointBox origin = true)
    (hd : dir.x ≠ 0 ∨ dir.y ≠ 0 ∨ dir.z ≠ 0) :
    ∃ ip, rayIntersectBox origin dir = some ip := by
  have hb := of_decide_eq_true hin
  obtain ⟨hx1, hx2, hy1, hy2, hz1, hz2⟩ := hb
  by_cases hdx : dir.x = 0 <;> by_cases hdy : dir.y = 0 <;> by_cases hdz : dir.z = 0
  · exact absurd hd (by simp [hdx, hdy, hdz])
  · obtain ⟨hlz, hhz⟩ := slab_signs origin.z dir.z boxMin.z boxMax.z hdz hz1 hz2
    exact rayIntersectBox_some_of_bracket origin dir _ _ hlz hhz
      (by simp [axisStep, hdx, hdy, hdz, hx1, hx2, hy1, hy2])
  · obtain ⟨hly, hhy⟩ := slab_signs origin.y dir.y boxMin.y boxMax.y hdy hy1 hy2
    exact rayIntersectBox_some_of_bracket origin dir _ _ hly hhy
      (by simp [axisStep, hdx, hdy, hdz, hx1, hx2, hz1, hz2])
  · obtain ⟨hly, hhy⟩ := slab_signs origin.y dir.y boxMin.y boxMax.y hdy hy1 hy2
    obtain ⟨hlz, hhz⟩ := slab_signs origin.z dir.z boxMin.z boxMax.z hdz hz1 hz2
    exact rayIntersectBox_some_of_bracket origin dir _ _ (max_le hly hlz) (le_min hhy hhz)
      (by simp [axisStep, hdx, hdy, hdz, hx1, hx2])
  · obtain ⟨hlx, hhx⟩ := slab_signs origin.x dir.x boxMin.x boxMax.x hdx hx1 hx2
    exact rayIntersectBox_some_of_bracket origin dir _ _ hlx hhx
      (by simp [axisStep, hdx, hdy, hdz, hy1, hy2, hz1, hz2])
  · obtain ⟨hlx, hhx⟩ := slab_signs origin.x dir.x boxMin.x boxMax.x hdx hx1 hx2
    obtain ⟨hlz, hhz⟩ := slab_signs origin.z dir.z boxMin.z boxMax.z hdz hz1 hz2
    exact rayIntersectBox_some_of_bracket origin dir _ _ (max_le hlx hlz) (le_min hhx hhz)
      (by simp [axisStep, hdx, hdy, hdz, hy1, hy2])
  · obtain ⟨hlx, hhx⟩ := slab_signs origin.x dir.x boxMin.x boxMax.x hdx hx1 hx2
    obtain ⟨hly, hhy⟩ := slab_signs origin.y dir.y boxMin.y boxMax.y hdy hy1 hy2
    exact rayIntersectBox_some_of_bracket origin dir _ _ (max_le hlx hly) (le_min hhx hhy)
      (by simp [axisStep, hdx, hdy, hdz, hz1, hz2])
  · obtain ⟨hlx, hhx⟩ := slab_signs origin.x dir.x boxMin.x boxMax.x hdx hx1 hx2
    obtain ⟨hly, hhy⟩ := slab_signs origin.y dir.y boxMin.y boxMax.y hdy hy1 hy2
    obtain ⟨hlz, hhz⟩ := slab_signs origin.z dir.z boxMin.z boxMax.z hdz hz1 hz2
    exact rayIntersectBox_some_of_bracket origin dir _ _ (max_le (max_le hlx hly) hlz)
      (le_min (le_min hhx hhy) hhz)
      (by simp [axisStep, hdx, hdy, hdz])

/-- C8.  Voronoi clipping cases for one unordered pair, exactly as the pair
loop of `drawVoronoi` dispatches them: non-adjacent pairs and pairs with an
undefined circumcenter emit nothing; two inside circumcenters emit the full
segment; exactly one inside circumcenter emits the segment from the inside
circumcenter to the ray-box intersection point, which always exists; two
outside circumcenters emit nothing. -/
theorem claim_C8_voronoi_clipping (t1 t2 : Tetrahedron) :
    (∀ rest, drawVoronoi (t1 :: rest)
        = rest.filterMap (emitForPair t1) ++ drawVoronoi rest) ∧
    (t1.isAdjacent t2 = false → emitForPair t1 t2 = none) ∧
    (t1.circumcenter = none ∨ t2.circumcenter = none → emitForPair t1 t2 = none) ∧
    (∀ c1 c2, t1.circumcenter = some c1 → t2.circumcenter = some c2 →
      t1.isAdjacent t2 = true →
      (containsPointBox c1 = true → containsPointBox c2 = true →
        emitForPair t1 t2 = some (c1, c2)) ∧
      (containsPointBox c1 = true → containsPointBox c2 = false →
        ∃ ip, rayIntersectBox c1 (c2.sub c1) = some ip ∧
          emitForPair t1 t2 = some (c1, ip)) ∧
      (containsPointBox c1 = false → containsPointBox c2 = true →
        ∃ ip, rayIntersectBox c2 (c1.sub c2) = some ip ∧
          emitForPair t1 t2 = some (c2, ip)) ∧
      (containsPointBox c1 = false → containsPointBox c2 = false →
        emitForPair t1 t2 = none)) := by
  refine ⟨fun rest => rfl, ?_, ?_, ?_⟩
  · intro hadj
    simp [emitForPair, hadj]
  · intro hnone
    rcases hnone with hn | hn <;>
      · unfold emitForPair
        rw [hn]
        rcases h1 : t1.circumcenter <;> rcases h2 : t2.circumcenter <;> simp_all
  · intro c1 c2 hc1 hc2 hadj
    have hsub_ne : ∀ a b : V3, containsPointBox a = true → containsPointBox b = false →
        (b.sub a).x ≠ 0 ∨ (b.sub a).y ≠ 0 ∨ (b.sub a).z ≠ 0 := by
      intro a b hina hinb
      by_contra hcon
      push_neg at hcon
      obtain ⟨hx0, hy0, hz0⟩ := hcon
      simp only [V3.sub, sub_eq_zero] at hx0 hy0 hz0
      have hab : b = a := by
        cases a
        cases b
        simp only at hx0 hy0 hz0
        simp [hx0, hy0, hz0]
      rw [hab, hina] at hinb
      exact absurd hinb (by simp)
    refine ⟨?_, ?_, ?_, ?_⟩
    · intro hin1 hin2
      simp [emitForPair, hadj, hc1, hc2, hin1, hin2]
    · intro hin1 hin2
      obtain ⟨ip, hip⟩ := rayIntersectBox_hits c1 (c2.sub c1) hin1
        (hsub_ne c1 c2 hin1 hin2)
      refine ⟨ip, hip, ?_⟩
      simp [emitForPair, hadj, hc1, hc2, hin1, hin2, hip]
    · intro hin1 hin2
      obtain ⟨ip, hip⟩ := rayIntersectBox_hits c2 (c1.sub c2) hin2
        (hsub_ne c2 c1 hin2 hin1)
      refine ⟨ip, hip, ?_⟩
      simp [emitForPair, hadj, hc1, hc2, hin1, hin2, hip]
    · intro hin1 hin2
      simp [emitForPair, hadj, hc1, hc2, hin1, hin2]

end DelaunaySpec

/-!
Witness and counterexample theorems evaluate the embedded program at
concrete rational inputs through kernel reduction.  The arithmetic
operations on `Rat` are restored to their default (semireducible)
transparency for this purpose; the preceding symbolic proofs do not rely on
unfolding them.
-/

set_option allowUnsafeReducibility true in
attribute [semireducible] Rat.add Rat.mul Rat.sub

set_option allowUnsafeReducibility true in
attribute [semireducible] Rat.inv

namespace DelaunaySpec

/-- C5 witness: the degenerate all-zero tetrahedron answers `false` for a
concrete query point, through the degenerate clause of the specification. -/
theorem claim_C5_witness :
    (Tetrahedron.mk ⟨0, 0, 0⟩ ⟨0, 0, 0⟩ ⟨0, 0, 0⟩ ⟨0, 0, 0⟩).circumsphereContains
      ⟨7, 7, 7⟩ = false :=
  ((claim_C5_circumsphereContains_spec
    (Tetrahedron.mk ⟨0, 0, 0⟩ ⟨0, 0, 0⟩ ⟨0, 0, 0⟩ ⟨0, 0, 0⟩) ⟨7, 7, 7⟩).2.2
    (by decide)).2

/-- C6 witness: the unit tetrahedron is non-degenerate and its circumsphere
passes through all four vertices. -/
theorem claim_C6_witness :
    ∃ c, (Tetrahedron.mk ⟨1, 0, 0⟩ ⟨0, 1, 0⟩ ⟨0, 0, 1⟩ ⟨0, 0, 0⟩).circumcenter = some c ∧
      (Tetrahedron.mk ⟨1, 0, 0⟩ ⟨0, 1, 0⟩ ⟨0, 0, 1⟩ ⟨0, 0, 0⟩).radiusSq
        = ((c.distanceToSquared ⟨1, 0, 0⟩ : ℚ) : WithTop ℚ) ∧
      c.distanceToSquared ⟨1, 0, 0⟩ = c.distanceToSquared ⟨0, 1, 0⟩ ∧
      c.distanceToSquared ⟨1, 0, 0⟩ = c.distanceToSquared ⟨0, 0, 1⟩ ∧
      c.distanceToSquared ⟨1, 0, 0⟩ = c.distanceToSquared ⟨0, 0, 0⟩ :=
  claim_C6_circumsphere_correct
    (Tetrahedron.mk ⟨1, 0, 0⟩ ⟨0, 1, 0⟩ ⟨0, 0, 1⟩ ⟨0, 0, 0⟩) (by decide)

/-- C1 counterexample.  The claim fails as stated over arbitrary insertion
sequences: construct `Delaunay3D(20)`, insert `(-50,-50,-50)` (outside the
super-tetrahedron's circumsphere, so the call removes nothing), then insert
`(1,1,1)` (inside it).  One of the four tetrahedra created by the second
call has a huge circumsphere that strictly contains the earlier inserted
point `(-50,-50,-50)`, which is not one of its vertices. -/
theorem claim_C1_counterexample :
    ∃ t ∈ (((Delaunay3D.init 20).addPoint ⟨-50, -50, -50⟩).2.addPoint
        ⟨1, 1, 1⟩).2.tetrahedra,
      t.containsPoint ⟨-50, -50, -50⟩ = false ∧
      t.circumsphereContains ⟨-50, -50, -50⟩ = true := by
  decide

/-- C1 witness: a no-op insertion far outside the circumsphere keeps the
super-tetrahedron live, and the amended invariant holds for it. -/
theorem claim_C1_witness :
    superTetra 20 ∈ (addPoint [superTetra 20] ⟨-50, -50, -50⟩).2 ∧
    (superTetra 20).containsPoint ⟨-50, -50, -50⟩ = false ∧
    (superTetra 20).circumsphereContains ⟨-50, -50, -50⟩ = false :=
  ⟨by decide, by decide,
    claim_C1_last_point_delaunay [superTetra 20] ⟨-50, -50, -50⟩ (superTetra 20)
      (by decide) (by decide)⟩

/-- C2 witness: inserting `(1,1,1)` into the fresh super-tetrahedron state,
where each face key occurs exactly once among the removed faces, the first
face's key is in the cavity keys exactly because its multiplicity is one. -/
theorem claim_C2_witness :
    faceKey ⟨⟨-20, -20, -20⟩, ⟨20, -20, 0⟩, ⟨0, 20, -20⟩⟩
        ∈ (cavityOf [superTetra 20] ⟨1, 1, 1⟩).map faceKey ↔
      keyCount [superTetra 20] ⟨1, 1, 1⟩
        (faceKey ⟨⟨-20, -20, -20⟩, ⟨20, -20, 0⟩, ⟨0, 20, -20⟩⟩) = 1 := by
  have hnd : ((allBadFaces [superTetra 20] ⟨1, 1, 1⟩).map faceKey).Nodup := by
    decide
  exact (claim_C2_cavity_closure [superTetra 20] ⟨1, 1, 1⟩
    (fun k => le_trans (List.nodup_iff_count_le_one.mp hnd k) (by norm_num))).2.1
    (faceKey ⟨⟨-20, -20, -20⟩, ⟨20, -20, 0⟩, ⟨0, 20, -20⟩⟩)

/-- C7 witness: the point `(0,-10,0)` is strictly inside the circumsphere of
the scale-20 super-tetrahedron, and the first insertion produces exactly the
predicted removal, cavity, and four created tetrahedra. -/
theorem claim_C7_witness :
    (superTetra 20).circumsphereContains ⟨0, -10, 0⟩ = true ∧
    addPoint (Delaunay3D.init 20).tetrahedra ⟨0, -10, 0⟩ =
      (⟨[superTetra 20], (superTetra 20).getFaces,
        (superTetra 20).getFaces.map
          (fun f => Tetrahedron.mk ⟨0, -10, 0⟩ f.a f.b f.c)⟩,
       (superTetra 20).getFaces.map
          (fun f => Tetrahedron.mk ⟨0, -10, 0⟩ f.a f.b f.c)) :=
  ⟨by decide, claim_C7_first_insertion 20 ⟨0, -10, 0⟩ (by decide)⟩

/-- C8 witness: two concrete adjacent tetrahedra whose circumcenters
`(1/2,1/2,1/2)` and `(3/2,3/2,3/2)` both lie inside the box emit the full
segment between the circumcenters. -/
theorem claim_C8_witness :
    emitForPair (Tetrahedron.mk ⟨0, 0, 0⟩ ⟨1, 0, 0⟩ ⟨0, 1, 0⟩ ⟨0, 0, 1⟩)
        (Tetrahedron.mk ⟨2, 0, 0⟩ ⟨1, 0, 0⟩ ⟨0, 1, 0⟩ ⟨0, 0, 1⟩)
      = some (⟨1/2, 1/2, 1/2⟩, ⟨3/2, 3/2, 3/2⟩) :=
  (((claim_C8_voronoi_clipping
      (Tetrahedron.mk ⟨0, 0, 0⟩ ⟨1, 0, 0⟩ ⟨0, 1, 0⟩ ⟨0, 0, 1⟩)
      (Tetrahedron.mk ⟨2, 0, 0⟩ ⟨1, 0, 0⟩ ⟨0, 1, 0⟩ ⟨0, 0, 1⟩)).2.2.2
    ⟨1/2, 1/2, 1/2⟩ ⟨3/2, 3/2, 3/2⟩
    (by decide) (by decide) (by decide)).1) (by decide) (by decide)

/-- C9 counterexample: in a state whose live tetrahedron has a fresh vertex
object carrying the coordinates of the first super point, the source's
object-identity filter keeps the tetrahedron while the claim's value-based
filter would drop it, so the two disagree. -/
theorem claim_C9_counterexample :
    (getTriangulationRef rDupState).1 ≠ getTriangulationByValue rDupState := by
  decide

/-- C9 witness: on a state without coordinate duplicates the object-identity
filter agrees with the value-based filter. -/
theorem claim_C9_witness :
    (getTriangulationRef rCleanState).1 = getTriangulationByValue rCleanState :=
  (claim_C9_reference_filter rCleanState).2.2 (by decide)

end DelaunaySpec
